import Mathlib

/-!
Verification of the line-annotation core of `tokei` (`src/language/annotate_file.rs`).

The file shallowly embeds `LanguageType::annotate_file`, `annotate_from_slice` and
`annotate_lines` over byte lists (`List Nat`, one `Nat` per byte, `10` being the
line terminator `b'\n'`).  The per-language syntax table (`SyntaxCounter` and its
matchers, which live outside the annotation module) is modelled from the spec as
an explicit `Lang` record together with spec-faithful parse helpers.
Classification maps (`HashMap<usize, LineType>`) are modelled extensionally as
`Nat → Option LineType`; `insert` overwrites and `extend` lets the second map's
entries win, matching `HashMap::insert` / `HashMap::extend`.
-/

/-- `LineType` from the source: classification of one physical line. -/
inductive LineType where
  | Blank
  | Code
  | Comment
deriving DecidableEq

/-- `Config`: the only field the annotation core reads. -/
structure Config where
  treat_doc_strings_as_comments : Option Bool
deriving DecidableEq

/-- Modelled from the spec: the per-language immutable syntax table consumed by the
core (line-comment prefixes, multi-line comment delimiter pairs, quote pairs,
doc-quote pairs, a nesting flag, the column-sensitivity (FORTRAN) flag, the
"blank language" flag and the "plain mode" flag).  The syntax-table construction
(`SyntaxCounter`'s shared matchers) is outside the annotated source. -/
structure Lang where
  is_blank : Bool
  is_fortran : Bool
  plain_mode : Bool
  nested : Bool
  line_comments : List (List Nat)
  multi_line_comments : List (List Nat × List Nat)
  quotes : List (List Nat × List Nat)
  doc_quotes : List (List Nat × List Nat)

/-- The mutable scan state (`SyntaxCounter`'s per-pass part): the stack of open
multi-line-comment close delimiters, the currently open quote's close delimiter,
and whether that quote is a doc quote. -/
structure ScanState where
  stack : List (List Nat)
  quote : Option (List Nat)
  quote_is_doc_quote : Bool

/-- `SyntaxCounter::new`: fresh scan state (empty stack, no open quote). -/
def initState : ScanState := ⟨[], none, false⟩

/-- Classification maps, extensionally: Rust's `HashMap<usize, LineType>`. -/
def CMap : Type := Nat → Option LineType

/-- The empty classification map. -/
def emptyCM : CMap := fun _ => none

/-- `HashMap::insert`: overwrite the entry at `k`. -/
def insertCM (m : CMap) (k : Nat) (v : LineType) : CMap :=
  fun j => if j = k then some v else m j

/-- `HashMap::extend`: entries of the second map overwrite those of the first. -/
def extendCM (m₁ m₂ : CMap) : CMap :=
  fun k => (m₂ k).orElse (fun _ => m₁ k)

/-- Ascii whitespace bytes, as in `u8::is_ascii_whitespace` (space, tab, newline,
form feed, carriage return). -/
def isWs (c : Nat) : Bool :=
  c = 32 || c = 9 || c = 10 || c = 12 || c = 13

/-- Modelled from the spec: `SliceExt::trim` (in `utils::ext`, outside the
annotated source) — strip ascii whitespace from both ends of a byte slice. -/
def trimBytes (w : List Nat) : List Nat :=
  ((w.dropWhile isWs).reverse.dropWhile isWs).reverse

/-- Helper for `lineIter`: accumulate the current line (reversed) while walking
the buffer; a `b'\n'` terminates a line and is kept on it. -/
def lineIterAux : List Nat → List Nat → List (List Nat)
  | acc, [] => if acc = [] then [] else [acc.reverse]
  | acc, c :: cs =>
    if c = 10 then (acc.reverse ++ [10]) :: lineIterAux [] cs
    else lineIterAux (c :: acc) cs

/-- `grep_searcher::LineIter::new(b'\n', text)`: split a buffer into its physical
lines, each keeping its terminator; a trailing unterminated line still counts. -/
def lineIter (text : List Nat) : List (List Nat) := lineIterAux [] text

/-- `Iterator::enumerate` starting at an arbitrary index. -/
def enumFrom {α : Type} : Nat → List α → List (Nat × α)
  | _, [] => []
  | n, a :: as => (n, a) :: enumFrom (n + 1) as

/-- Does any of the patterns occur anywhere in `w`?  (The regex-set matchers are
modelled from the spec as multi-pattern substring search.) -/
def containsMatch (pats : List (List Nat)) : List Nat → Bool
  | [] => pats.any (fun p => p.isPrefixOf ([] : List Nat))
  | c :: cs => pats.any (fun p => p.isPrefixOf (c :: cs)) || containsMatch pats cs

/-- Position of the earliest match of any pattern, starting the count at `i`. -/
def earliestFindAux (pats : List (List Nat)) : List Nat → Nat → Option Nat
  | [], i => if pats.any (fun p => p.isPrefixOf ([] : List Nat)) then some i else none
  | c :: cs, i =>
    if pats.any (fun p => p.isPrefixOf (c :: cs)) then some i
    else earliestFindAux pats cs (i + 1)

/-- Modelled from the spec: the "important syntax" detector — anything that could
open or close a multi-line construct, quote or doc quote. -/
def importantPatterns (lang : Lang) : List (List Nat) :=
  lang.multi_line_comments.map (·.1) ++ lang.multi_line_comments.map (·.2)
    ++ lang.quotes.map (·.1) ++ lang.quotes.map (·.2)
    ++ lang.doc_quotes.map (·.1) ++ lang.doc_quotes.map (·.2)

/-- `important_syntax.is_match(line)`. -/
def importantMatch (lang : Lang) (w : List Nat) : Bool :=
  containsMatch (importantPatterns lang) w

/-- `important_syntax.earliest_find(text)`, returning the match's start offset. -/
def earliestFind (lang : Lang) (text : List Nat) : Option Nat :=
  earliestFindAux (importantPatterns lang) text 0

/-- Modelled from the spec: the "contains any comment marker" detector
(`any_comments`) — line-comment prefixes and multi-line comment delimiters. -/
def anyCommentsPatterns (lang : Lang) : List (List Nat) :=
  lang.line_comments ++ lang.multi_line_comments.map (·.1)
    ++ lang.multi_line_comments.map (·.2)

/-- `any_comments.is_match(line)`. -/
def anyCommentsMatch (lang : Lang) (w : List Nat) : Bool :=
  containsMatch (anyCommentsPatterns lang) w

/-- Modelled from the spec: `SyntaxCounter::parse_end_of_quote` — while a quote is
open, try to match its close delimiter at the window; on success clear the quote
and report how many bytes were consumed. -/
def parse_end_of_quote (st : ScanState) (w : List Nat) : Option (ScanState × Nat) :=
  match st.quote with
  | some q => if q.isPrefixOf w then some ({ st with quote := none }, q.length) else none
  | none => none

/-- Modelled from the spec: `SyntaxCounter::parse_end_of_multi_line` — try to match
the close delimiter of the innermost open block comment; on success pop it. -/
def parse_end_of_multi_line (st : ScanState) (w : List Nat) : Option (ScanState × Nat) :=
  match st.stack with
  | e :: rest => if e.isPrefixOf w then some ({ st with stack := rest }, e.length) else none
  | [] => none

/-- Modelled from the spec: `SyntaxCounter::parse_quote` — with no open context,
try to open a doc quote (setting the doc flag) or an ordinary quote. -/
def parse_quote (lang : Lang) (st : ScanState) (w : List Nat) :
    Option (ScanState × Nat) :=
  if !st.stack.isEmpty then none
  else
    match lang.doc_quotes.find? (fun p => p.1.isPrefixOf w) with
    | some p => some ({ st with quote := some p.2, quote_is_doc_quote := true }, p.1.length)
    | none =>
      match lang.quotes.find? (fun p => p.1.isPrefixOf w) with
      | some p => some ({ st with quote := some p.2, quote_is_doc_quote := false }, p.1.length)
      | none => none

/-- Modelled from the spec: `SyntaxCounter::parse_multi_line_comment` — try to
match a block-comment open delimiter; push its close delimiter (one entry per
open when the stack is empty or nesting is allowed). -/
def parse_multi_line_comment (lang : Lang) (st : ScanState) (w : List Nat) :
    Option (ScanState × Nat) :=
  match lang.multi_line_comments.find? (fun p => p.1.isPrefixOf w) with
  | some p =>
    some ({ st with stack :=
             if st.stack.isEmpty || lang.nested then p.2 :: st.stack else st.stack },
          p.1.length)
  | none => none

/-- Modelled from the spec: `SyntaxCounter::parse_line_comment` — with no open
context, does a line-comment prefix start at the window? -/
def parse_line_comment (lang : Lang) (st : ScanState) (w : List Nat) : Bool :=
  st.stack.isEmpty && st.quote.isNone
    && lang.line_comments.any (fun c => c.isPrefixOf w)

/-- The `'window` loop of `annotate_lines` (lines 182–216 of the source): walk the
line byte by byte with a skip counter, attempting, in the source's order, close of
quote / close of block comment (setting `ended_with_comments`), then — when no
quote is open — quote/doc-quote open, block-comment open, and finally a
line-comment prefix, which ends the walk.  Returns the final state and the
`ended_with_comments` flag. -/
def scanLine (lang : Lang) : ScanState → Bool → Nat → List Nat → ScanState × Bool
  | st, ended, _, [] => (st, ended)
  | st, ended, skip, c :: cs =>
    if skip ≠ 0 then scanLine lang st ended (skip - 1) cs
    else
      match parse_end_of_quote st (c :: cs) with
      | some (st2, n) => scanLine lang st2 true (n - 1) cs
      | none =>
        match parse_end_of_multi_line st (c :: cs) with
        | some (st2, n) => scanLine lang st2 true (n - 1) cs
        | none =>
          if st.quote.isSome then scanLine lang st false 0 cs
          else
            match parse_quote lang st (c :: cs) with
            | some (st2, n) => scanLine lang st2 false (n - 1) cs
            | none =>
              match parse_multi_line_comment lang st (c :: cs) with
              | some (st2, n) => scanLine lang st2 false (n - 1) cs
              | none =>
                if parse_line_comment lang st (c :: cs) then (st, true)
                else scanLine lang st false 0 cs

/-- The FORTRAN rule (lines 144–148 and 102): column-sensitive languages keep the
line verbatim, all others are trimmed before scanning. -/
def fortranAdjust (lang : Lang) (line : List Nat) : List Nat :=
  if lang.is_fortran then line else trimBytes line

/-- The `is_comments` disjunction of `annotate_lines` (lines 220–235): the line was
inside (or just closed) an already-open block comment, or it contains a comment
marker with no quote open, or the doc-string opt-in condition holds. -/
def is_comments (lang : Lang) (cfg : Config) (had_multi_line ended : Bool)
    (st : ScanState) (line : List Nat) : Bool :=
  ((!st.stack.isEmpty || ended) && had_multi_line)
    || (anyCommentsMatch lang line && st.quote.isNone)
    || ((st.quote.isSome || lang.doc_quotes.any (fun p => p.1.isPrefixOf line))
        && (cfg.treat_doc_strings_as_comments == some true)
        && st.quote_is_doc_quote)

/-- The `for (line_num, line) in lines.enumerate()` loop of `annotate_lines`
(lines 140–245): classify each line against the running scan state, inserting at
the enumeration index `num`; the FORTRAN rule keeps the untrimmed line, the
blank check re-trims, the plain-mode fast path classifies by line-comment prefix
with no state mutation, and the general path runs the window scan then the
`is_comments` decision. -/
def annotateLinesGo (lang : Lang) (cfg : Config) :
    List (List Nat) → Nat → CMap → ScanState → CMap
  | [], _, ann, _ => ann
  | line :: rest, num, ann, st =>
    if trimBytes (fortranAdjust lang line) = [] then
      annotateLinesGo lang cfg rest (num + 1) (insertCM ann num LineType.Blank) st
    else if lang.plain_mode && !importantMatch lang (fortranAdjust lang line) then
      if lang.line_comments.any (fun c => c.isPrefixOf (fortranAdjust lang line)) then
        annotateLinesGo lang cfg rest (num + 1) (insertCM ann num LineType.Comment) st
      else
        annotateLinesGo lang cfg rest (num + 1) (insertCM ann num LineType.Code) st
    else
      if is_comments lang cfg (!st.stack.isEmpty)
          (scanLine lang st false 0 (fortranAdjust lang line)).2
          (scanLine lang st false 0 (fortranAdjust lang line)).1
          (fortranAdjust lang line) then
        annotateLinesGo lang cfg rest (num + 1) (insertCM ann num LineType.Comment)
          (scanLine lang st false 0 (fortranAdjust lang line)).1
      else
        annotateLinesGo lang cfg rest (num + 1) (insertCM ann num LineType.Code)
          (scanLine lang st false 0 (fortranAdjust lang line)).1

/-- `LanguageType::annotate_lines`: the stateful sequential scan, enumerating its
lines from 0 over the given starting map and scan state. -/
def annotate_lines (lang : Lang) (cfg : Config) (lines : List (List Nat))
    (annotations : CMap) (st : ScanState) : CMap :=
  annotateLinesGo lang cfg lines 0 annotations st

/-- The blank-language fast path (lines 64–67): every enumerated line is `Code`. -/
def blankAnnotsGo : List (List Nat) → Nat → CMap → CMap
  | [], _, ann => ann
  | _ :: rest, n, ann => blankAnnotsGo rest (n + 1) (insertCM ann n LineType.Code)

/-- The blank-language path's map, enumerating from 0. -/
def blankAnnots (lines : List (List Nat)) : CMap := blankAnnotsGo lines 0 emptyCM

/-- One prefix line's stateless classification (lines 97–111): blank after
re-trim, else line-comment prefix, else code; FORTRAN lines stay untrimmed. -/
def skippableClass (lang : Lang) (line : List Nat) : LineType :=
  if trimBytes (fortranAdjust lang line) = [] then LineType.Blank
  else if lang.line_comments.any (fun c => c.isPrefixOf (fortranAdjust lang line)) then
    LineType.Comment
  else LineType.Code

/-- The singleton `line_map` one parallel worker produces for one prefix line. -/
def skippableLineMap (lang : Lang) (p : Nat × List Nat) : CMap :=
  insertCM emptyCM p.1 (skippableClass lang p.2)

/-- The per-line maps of the prefix half, in enumeration order (the input of the
rayon `map(..).reduce(..)`). -/
def skippableLineMaps (lang : Lang) (lines : List (List Nat)) : List CMap :=
  (enumFrom 0 lines).map (skippableLineMap lang)

/-- The prefix half's reduced map: fold the per-line maps with `extend` starting
from the empty map (the rayon `reduce(HashMap::new, extend)`). -/
def skippableAnnots (lang : Lang) (lines : List (List Nat)) : CMap :=
  (skippableLineMaps lang lines).foldl extendCM emptyCM

/-- The split-point computation of `annotate_from_slice` (lines 69–83): find the
earliest important-syntax match, then the last line terminator at or before it
(rejecting a terminator exactly at the match); the returned index is that
terminator's position. -/
def findSplit (lang : Lang) (text : List Nat) : Option Nat :=
  match earliestFind lang text with
  | none => none
  | some s =>
    (((text.take (s + 1)).reverse.findIdx? (fun c => c = 10)).filter
        (fun p => p ≠ 0)).map (fun p => s - p)

/-- `LanguageType::annotate_from_slice` (lines 54–130): blank-language fast path;
otherwise, when a safe split point exists, concurrently run the stateful scan on
the tail and the stateless per-line classification on the skippable prefix and
merge with `extend`; otherwise run the sequential stateful scan on all lines. -/
def annotate_from_slice (lang : Lang) (cfg : Config) (text : List Nat) : CMap :=
  if lang.is_blank then blankAnnots (lineIter text)
  else
    match findSplit lang text with
    | some e =>
      extendCM
        (annotate_lines lang cfg (lineIter (text.drop (e + 1))) emptyCM initState)
        (skippableAnnots lang (lineIter (text.take (e + 1))))
    | none => annotate_lines lang cfg (lineIter text) emptyCM initState

/-- Modelled from the spec: an I/O failure reported by the external decoding
reader (file open or read), outside the annotated source. -/
structure IOErr where
  code : Nat
deriving DecidableEq

/-- Modelled from the spec: an opened file handle. -/
structure FileHandle where
  id : Nat

/-- Modelled from the spec: the external file system / decoding reader
(`File::open` plus `DecodeReaderBytesBuilder`'s `read_to_end`), which either
fails with an I/O error or yields the decoded byte buffer. -/
structure FileSystem where
  openFile : List Nat → Except IOErr FileHandle
  readToEnd : FileHandle → Except IOErr (List Nat)

/-- `LanguageType::annotate_file` (lines 30–51): open the file, read it to the
end, and classify the buffer; each I/O failure is returned to the caller paired
with the original path. -/
def annotate_file (lang : Lang) (fs : FileSystem) (path : List Nat)
    (cfg : Config) : Except (IOErr × List Nat) CMap :=
  match fs.openFile path with
  | Except.error e => Except.error (e, path)
  | Except.ok f =>
    match fs.readToEnd f with
    | Except.error e => Except.error (e, path)
    | Except.ok text => Except.ok (annotate_from_slice lang cfg text)

/-- The bare read pipeline: open then read, with no path decoration. -/
def readOutcome (fs : FileSystem) (path : List Nat) : Except IOErr (List Nat) :=
  match fs.openFile path with
  | Except.error e => Except.error e
  | Except.ok f => fs.readToEnd f

/-- A C-like test language: `//` line comments, one `/* */` block comment pair,
`"` string quotes, no doc quotes, not nested, not column-sensitive. -/
def toyLang : Lang :=
  { is_blank := false, is_fortran := false, plain_mode := false, nested := false,
    line_comments := [[47, 47]],
    multi_line_comments := [([47, 42], [42, 47])],
    quotes := [([34], [34])],
    doc_quotes := [] }

/-- A column-sensitive (FORTRAN-style) test language with `!` line comments. -/
def fortLang : Lang :=
  { is_blank := false, is_fortran := true, plain_mode := false, nested := false,
    line_comments := [[33]], multi_line_comments := [], quotes := [], doc_quotes := [] }

/-- A blank language: no comment syntax at all. -/
def blankLang : Lang :=
  { is_blank := true, is_fortran := false, plain_mode := false, nested := false,
    line_comments := [], multi_line_comments := [], quotes := [], doc_quotes := [] }

/-- The default configuration (`treat_doc_strings_as_comments` unset). -/
def cfgNone : Config := ⟨none⟩

/-- The two-line buffer `"a\n/*\n"`: line 0 is code, line 1 opens a block comment,
so the earliest important-syntax match is on the second line and a safe split
point exists (the split path is taken). -/
def exText : List Nat := [97, 10, 47, 42, 10]

theorem insertCM_eval (m : CMap) (k : Nat) (v : LineType) (j : Nat) :
    insertCM m k v j = if j = k then some v else m j := rfl

theorem annotateLinesGo_lookup_lt (lang : Lang) (cfg : Config) :
    ∀ (lines : List (List Nat)) (n : Nat) (ann : CMap) (st : ScanState) (k : Nat),
      k < n → annotateLinesGo lang cfg lines n ann st k = ann k := by
  intro lines
  induction lines with
  | nil => intro n ann st k _; rfl
  | cons line rest ih =>
    intro n ann st k hk
    have hne : ¬k = n := by omega
    simp only [annotateLinesGo]
    split
    · rw [ih _ _ _ _ (by omega), insertCM_eval, if_neg hne]
    · split
      · split
        · rw [ih _ _ _ _ (by omega), insertCM_eval, if_neg hne]
        · rw [ih _ _ _ _ (by omega), insertCM_eval, if_neg hne]
      · split
        · rw [ih _ _ _ _ (by omega), insertCM_eval, if_neg hne]
        · rw [ih _ _ _ _ (by omega), insertCM_eval, if_neg hne]

theorem annotateLinesGo_isSome (lang : Lang) (cfg : Config) :
    ∀ (lines : List (List Nat)) (n : Nat) (ann : CMap) (st : ScanState) (k : Nat),
      (annotateLinesGo lang cfg lines n ann st k).isSome
        ↔ (n ≤ k ∧ k < n + lines.length) ∨ (ann k).isSome := by
  intro lines
  induction lines with
  | nil =>
    intro n ann st k
    simp only [annotateLinesGo, List.length_nil]
    constructor
    · exact Or.inr
    · rintro (⟨h1, h2⟩ | h)
      · omega
      · exact h
  | cons line rest ih =>
    intro n ann st k
    have step : ∀ (v : LineType) (st' : ScanState),
        (annotateLinesGo lang cfg rest (n + 1) (insertCM ann n v) st' k).isSome
          ↔ (n ≤ k ∧ k < n + (line :: rest).length) ∨ (ann k).isSome := by
      intro v st'
      rw [ih]
      by_cases hk : k = n
      · subst hk
        simp only [insertCM_eval, if_pos rfl, Option.isSome_some, List.length_cons]
        constructor
        · intro _; exact Or.inl ⟨le_rfl, by omega⟩
        · intro _; exact Or.inr (by simp [insertCM_eval])
      · simp only [insertCM_eval, if_neg hk, List.length_cons]
        constructor
        · rintro (⟨h1, h2⟩ | h)
          · exact Or.inl ⟨by omega, by omega⟩
          · exact Or.inr h
        · rintro (⟨h1, h2⟩ | h)
          · exact Or.inl ⟨by omega, by omega⟩
          · exact Or.inr h
    simp only [annotateLinesGo]
    split
    · exact step _ _
    · split
      · split
        · exact step _ _
        · exact step _ _
      · split
        · exact step _ _
        · exact step _ _

theorem blankAnnotsGo_lookup :
    ∀ (lines : List (List Nat)) (n : Nat) (ann : CMap) (k : Nat),
      blankAnnotsGo lines n ann k
        = if n ≤ k ∧ k < n + lines.length then some LineType.Code else ann k := by
  intro lines
  induction lines with
  | nil =>
    intro n ann k
    simp only [blankAnnotsGo, List.length_nil]
    rw [if_neg (by omega)]
  | cons line rest ih =>
    intro n ann k
    simp only [blankAnnotsGo, List.length_cons]
    rw [ih]
    by_cases hk : k = n
    · subst hk
      rw [if_neg (by omega), insertCM_eval, if_pos rfl, if_pos (by omega)]
    · by_cases hr : n + 1 ≤ k ∧ k < n + 1 + rest.length
      · rw [if_pos hr, if_pos (by omega)]
      · rw [if_neg hr, insertCM_eval, if_neg hk, if_neg (by omega)]

theorem extend_single_eval (m : CMap) (k0 : Nat) (v : LineType) (k : Nat) :
    extendCM m (insertCM emptyCM k0 v) k = if k = k0 then some v else m k := by
  by_cases hk : k = k0
  · simp [extendCM, insertCM, emptyCM, hk, Option.orElse]
  · simp [extendCM, insertCM, emptyCM, hk, Option.orElse]

theorem skippableFold_lookup (lang : Lang) :
    ∀ (lines : List (List Nat)) (n0 : Nat) (m0 : CMap) (k : Nat),
      (((enumFrom n0 lines).map (skippableLineMap lang)).foldl extendCM m0) k
        = if n0 ≤ k ∧ k < n0 + lines.length
          then some (skippableClass lang (lines.getD (k - n0) []))
          else m0 k := by
  intro lines
  induction lines with
  | nil =>
    intro n0 m0 k
    rw [enumFrom]
    simp only [List.map_nil, List.foldl_nil, List.length_nil]
    rw [if_neg (by omega)]
  | cons line rest ih =>
    intro n0 m0 k
    rw [enumFrom]
    simp only [List.map_cons, List.foldl_cons, List.length_cons]
    rw [ih]
    by_cases hk : k = n0
    · subst hk
      rw [if_neg (by omega), skippableLineMap, extend_single_eval, if_pos rfl,
        if_pos (by omega), Nat.sub_self, List.getD_cons_zero]
    · by_cases hr : n0 + 1 ≤ k ∧ k < n0 + 1 + rest.length
      · rw [if_pos hr, if_pos (by omega)]
        have hkn : k - n0 = (k - (n0 + 1)) + 1 := by omega
        rw [hkn, List.getD_cons_succ]
      · rw [if_neg hr, skippableLineMap, extend_single_eval, if_neg hk,
          if_neg (by omega)]

theorem forall_mem_of_forall_mem_dropWhile {α : Type} (p : α → Bool) :
    ∀ (l : List α), (∀ x ∈ l.dropWhile p, p x = true) → ∀ x ∈ l, p x = true := by
  intro l
  induction l with
  | nil => intro _ x hx; cases hx
  | cons a l ih =>
    intro h x hx
    by_cases hpa : p a = true
    · rw [List.dropWhile_cons, if_pos hpa] at h
      rcases List.mem_cons.mp hx with rfl | hx'
      · exact hpa
      · exact ih h x hx'
    · rw [List.dropWhile_cons, if_neg hpa] at h
      exact h x hx

theorem trim_eq_nil_iff (w : List Nat) :
    trimBytes w = [] ↔ ∀ c ∈ w, isWs c = true := by
  rw [trimBytes, List.reverse_eq_nil_iff, List.dropWhile_eq_nil_iff]
  constructor
  · intro h
    apply forall_mem_of_forall_mem_dropWhile isWs w
    intro x hx
    exact h x (List.mem_reverse.mpr hx)
  · intro h x hx
    exact h x ((List.dropWhile_sublist isWs).subset (List.mem_reverse.mp hx))

theorem trim_allWs_iff (w : List Nat) :
    (∀ c ∈ trimBytes w, isWs c = true) ↔ ∀ c ∈ w, isWs c = true := by
  constructor
  · intro h
    apply forall_mem_of_forall_mem_dropWhile isWs w
    intro x hx
    refine forall_mem_of_forall_mem_dropWhile isWs (w.dropWhile isWs).reverse
      ?_ x (List.mem_reverse.mpr hx)
    intro y hy
    exact h y (List.mem_reverse.mpr hy)
  · intro h c hc
    apply h
    have h1 := List.mem_reverse.mp hc
    have h2 := (List.dropWhile_sublist isWs).subset h1
    exact (List.dropWhile_sublist isWs).subset (List.mem_reverse.mp h2)

theorem fortranAdjust_trim_nil_iff (lang : Lang) (line : List Nat) :
    trimBytes (fortranAdjust lang line) = [] ↔ ∀ c ∈ line, isWs c = true := by
  rw [fortranAdjust]
  by_cases hf : lang.is_fortran = true
  · rw [if_pos hf, trim_eq_nil_iff]
  · rw [if_neg hf, trim_eq_nil_iff, trim_allWs_iff]

theorem extend_single_comm (z : CMap) (k1 k2 : Nat) (v1 v2 : LineType)
    (h : k1 = k2 → v1 = v2) :
    extendCM (extendCM z (insertCM emptyCM k1 v1)) (insertCM emptyCM k2 v2)
      = extendCM (extendCM z (insertCM emptyCM k2 v2)) (insertCM emptyCM k1 v1) := by
  funext j
  rw [extend_single_eval, extend_single_eval, extend_single_eval, extend_single_eval]
  by_cases h1 : j = k1
  · by_cases h2 : j = k2
    · have hk : k1 = k2 := h1.symm.trans h2
      rw [if_pos h2, if_pos h1, h hk]
    · rw [if_neg h2, if_pos h1, if_pos h1]
  · by_cases h2 : j = k2
    · rw [if_pos h2, if_neg h1, if_pos h2]
    · rw [if_neg h2, if_neg h1, if_neg h1, if_neg h2]

theorem enumFrom_key_ge {α : Type} :
    ∀ (l : List α) (n : Nat) (p : Nat × α), p ∈ enumFrom n l → n ≤ p.1 := by
  intro l
  induction l with
  | nil => intro n p hp; cases hp
  | cons a l ih =>
    intro n p hp
    rw [enumFrom] at hp
    rcases List.mem_cons.mp hp with rfl | hp'
    · exact le_rfl
    · exact le_trans (by omega) (ih (n + 1) p hp')

theorem enumFrom_key_inj {α : Type} :
    ∀ (l : List α) (n : Nat) (p q : Nat × α),
      p ∈ enumFrom n l → q ∈ enumFrom n l → p.1 = q.1 → p = q := by
  intro l
  induction l with
  | nil => intro n p q hp; cases hp
  | cons a l ih =>
    intro n p q hp hq hpq
    rw [enumFrom] at hp hq
    rcases List.mem_cons.mp hp with rfl | hp' <;> rcases List.mem_cons.mp hq with rfl | hq'
    · rfl
    · exact absurd (hpq ▸ enumFrom_key_ge l (n + 1) q hq') (by omega)
    · exact absurd (hpq ▸ enumFrom_key_ge l (n + 1) p hp') (by omega)
    · exact ih (n + 1) p q hp' hq' hpq

theorem skippableLineMaps_comm (lang : Lang) (lines : List (List Nat)) :
    ∀ x ∈ skippableLineMaps lang lines, ∀ y ∈ skippableLineMaps lang lines,
      ∀ (z : CMap), extendCM (extendCM z x) y = extendCM (extendCM z y) x := by
  intro x hx y hy z
  rw [skippableLineMaps] at hx hy
  rcases List.mem_map.mp hx with ⟨p, hp, rfl⟩
  rcases List.mem_map.mp hy with ⟨q, hq, rfl⟩
  rw [skippableLineMap, skippableLineMap]
  apply extend_single_comm
  intro hkey
  rw [enumFrom_key_inj lines 0 p q hp hq hkey]

theorem is_comments_config_default (lang : Lang) (hm e : Bool) (st : ScanState)
    (line : List Nat) :
    is_comments lang ⟨none⟩ hm e st line = is_comments lang ⟨some false⟩ hm e st line := rfl

theorem annotateLinesGo_config_default (lang : Lang) :
    ∀ (lines : List (List Nat)) (n : Nat) (ann : CMap) (st : ScanState),
      annotateLinesGo lang ⟨none⟩ lines n ann st
        = annotateLinesGo lang ⟨some false⟩ lines n ann st := by
  intro lines
  induction lines with
  | nil => intro n ann st; rfl
  | cons line rest ih =>
    intro n ann st
    simp only [annotateLinesGo, is_comments_config_default, ih]

/-- C1: the claim that the split path of `annotate_from_slice` returns the same
map as the pure sequential full scan fails on the code: on the two-line buffer
`"a\n/*\n"` (C-like language, split point after line 0) the split path returns a
map with no entry for line 1, while the sequential full scan maps line 1 to
`Comment` — both halves of the split enumerate their own lines from 0, so the
prefix entry overwrites the tail's line 0 and the last line is lost. -/
theorem split_path_differs_from_sequential :
    annotate_from_slice toyLang cfgNone exText 1 = none
  ∧ annotate_lines toyLang cfgNone (lineIter exText) emptyCM initState 1
      = some LineType.Comment := by
  exact ⟨by decide, by decide⟩

/-- C2: the claim that the prefix map's and tail map's key sets are disjoint
(every prefix key below every tail key) fails on the code: on `"a\n/*\n"` the
split point is byte 1, the prefix map contains key 0 (`Code`) and the tail map
also contains key 0 (`Comment`), so the final `extend` overwrites an entry. -/
theorem prefix_tail_keys_collide :
    findSplit toyLang exText = some 1
  ∧ skippableAnnots toyLang (lineIter (exText.take 2)) 0 = some LineType.Code
  ∧ annotate_lines toyLang cfgNone (lineIter (exText.drop 2)) emptyCM initState 0
      = some LineType.Comment := by
  exact ⟨by decide, by decide, by decide⟩

/-- C3: the claim that the returned map has exactly one entry per physical line on
every path fails on the split path: `"a\n/*\n"` has two physical lines but the
returned map has no entry at key 1 (the colliding 0-based halves leave only one
entry), so the map covers one line, not two. -/
theorem split_path_drops_lines :
    (lineIter exText).length = 2
  ∧ annotate_from_slice toyLang cfgNone exText 1 = none := by
  exact ⟨by decide, by decide⟩

/-- C4 (counterexample): the claim that for a column-sensitive language a
whitespace-only line is not Blank fails on the code: `fortLang` is
column-sensitive, the single physical line `" \n"` is nonempty and stays
untrimmed under the FORTRAN rule, yet `annotate_from_slice` classifies it
`Blank`, because the blank check re-trims the line unconditionally. -/
theorem fortran_whitespace_line_is_blank :
    fortLang.is_fortran = true
  ∧ lineIter [32, 10] = [[32, 10]]
  ∧ fortranAdjust fortLang [32, 10] = [32, 10]
  ∧ ([32, 10] : List Nat) ≠ []
  ∧ annotate_from_slice fortLang cfgNone [32, 10] 0 = some LineType.Blank := by
  exact ⟨rfl, by decide, by decide, by decide, by decide⟩

/-- C4 (amended): a line is classified `Blank` iff it consists entirely of
whitespace (zero length after trimming), for every language including
column-sensitive ones — in the stateful scan (`annotate_lines` inserting at the
line's own index) and in the prefix path's per-line classification alike; the
column-sensitivity exemption from trimming affects only comment matching and
scanning, never the blank check, which re-trims the line unconditionally. -/
theorem blank_iff_whitespace_only (lang : Lang) (cfg : Config) (line : List Nat)
    (rest : List (List Nat)) (n : Nat) (ann : CMap) (st : ScanState) :
    (annotateLinesGo lang cfg (line :: rest) n ann st n = some LineType.Blank
      ↔ ∀ c ∈ line, isWs c = true)
  ∧ (skippableClass lang line = LineType.Blank ↔ ∀ c ∈ line, isWs c = true) := by
  constructor
  · simp only [annotateLinesGo]
    split
    · rename_i hcond
      rw [annotateLinesGo_lookup_lt lang cfg rest (n + 1) _ st n (by omega),
        insertCM_eval, if_pos rfl]
      exact iff_of_true rfl ((fortranAdjust_trim_nil_iff lang line).mp hcond)
    · rename_i hcond
      have hws : ¬∀ c ∈ line, isWs c = true :=
        fun hall => hcond ((fortranAdjust_trim_nil_iff lang line).mpr hall)
      split
      · split
        · rw [annotateLinesGo_lookup_lt lang cfg rest (n + 1) _ st n (by omega),
            insertCM_eval, if_pos rfl]
          exact iff_of_false (by simp) hws
        · rw [annotateLinesGo_lookup_lt lang cfg rest (n + 1) _ st n (by omega),
            insertCM_eval, if_pos rfl]
          exact iff_of_false (by simp) hws
      · split
        · rw [annotateLinesGo_lookup_lt lang cfg rest (n + 1) _ _ n (by omega),
            insertCM_eval, if_pos rfl]
          exact iff_of_false (by simp) hws
        · rw [annotateLinesGo_lookup_lt lang cfg rest (n + 1) _ _ n (by omega),
            insertCM_eval, if_pos rfl]
          exact iff_of_false (by simp) hws
  · simp only [skippableClass]
    split
    · rename_i hcond
      exact iff_of_true rfl ((fortranAdjust_trim_nil_iff lang line).mp hcond)
    · rename_i hcond
      have hws : ¬∀ c ∈ line, isWs c = true :=
        fun hall => hcond ((fortranAdjust_trim_nil_iff lang line).mpr hall)
      split
      · exact iff_of_false (by simp) hws
      · exact iff_of_false (by simp) hws

/-- C5: for a blank language (no comment syntax defined), `annotate_from_slice`
classifies every physical line as `Code` — including empty lines — and maps
nothing else: the entry at `k` is `Code` exactly for `k` below the line count. -/
theorem blank_language_all_code (lang : Lang) (cfg : Config) (text : List Nat)
    (k : Nat) (h : lang.is_blank = true) :
    annotate_from_slice lang cfg text k
      = if k < (lineIter text).length then some LineType.Code else none := by
  simp only [annotate_from_slice]
  rw [if_pos h, blankAnnots, blankAnnotsGo_lookup]
  by_cases hk : k < (lineIter text).length
  · rw [if_pos (by omega), if_pos hk]
  · rw [if_neg (by omega), if_neg hk]
    rfl

/-- C5 (witness): on the blank language and the buffer `"\n\n"`, line 1 — an
empty line — is classified `Code`. -/
theorem blank_language_all_code_witness :
    blankLang.is_blank = true
  ∧ annotate_from_slice blankLang cfgNone [10, 10] 1
      = (if 1 < (lineIter [10, 10]).length then some LineType.Code else none) :=
  ⟨rfl, blank_language_all_code blankLang cfgNone [10, 10] 1 rfl⟩

/-- C6: the doc-string disjunct of `is_comments` can only fire when
`treat_doc_strings_as_comments` is exactly `Some(true)` and the open (or just
opened) quote is flagged as a doc quote: if either fails, the classification
reduces to the other two conditions, so the doc-string condition never makes a
line `Comment`. -/
theorem doc_string_condition_requires_opt_in (lang : Lang) (cfg : Config)
    (hm e : Bool) (st : ScanState) (line : List Nat)
    (h : cfg.treat_doc_strings_as_comments ≠ some true
        ∨ st.quote_is_doc_quote = false) :
    is_comments lang cfg hm e st line
      = (((!st.stack.isEmpty || e) && hm)
          || (anyCommentsMatch lang line && st.quote.isNone)) := by
  simp only [is_comments]
  rcases h with h | h
  · rw [beq_eq_false_iff_ne.mpr h]
    simp
  · rw [h]
    simp

/-- C6 (witness): with `treat_doc_strings_as_comments = Some(false)` and an open
doc-flagged quote, `is_comments` equals the two-condition form (the doc-string
disjunct contributes nothing). -/
theorem doc_string_condition_requires_opt_in_witness :
    ((⟨some false⟩ : Config).treat_doc_strings_as_comments ≠ some true
        ∨ (⟨[], some [34], true⟩ : ScanState).quote_is_doc_quote = false)
  ∧ is_comments toyLang ⟨some false⟩ false false ⟨[], some [34], true⟩ [34, 120]
      = (((!(⟨[], some [34], true⟩ : ScanState).stack.isEmpty || false) && false)
          || (anyCommentsMatch toyLang [34, 120]
              && (⟨[], some [34], true⟩ : ScanState).quote.isNone)) :=
  ⟨Or.inl (by decide),
    doc_string_condition_requires_opt_in toyLang ⟨some false⟩ false false
      ⟨[], some [34], true⟩ [34, 120] (Or.inl (by decide))⟩

/-- C7: classifying with `treat_doc_strings_as_comments = None` and with
`= Some(false)` yields identical maps for every buffer and language — the
configuration is only ever compared against `Some(true)`. -/
theorem config_none_eq_some_false (lang : Lang) (text : List Nat) :
    annotate_from_slice lang ⟨none⟩ text
      = annotate_from_slice lang ⟨some false⟩ text := by
  simp only [annotate_from_slice, annotate_lines]
  split
  · rfl
  · split
    · rw [annotateLinesGo_config_default]
    · rw [annotateLinesGo_config_default]

/-- C8: `annotate_file` fails exactly when opening or reading the file fails, the
error carrying the I/O error paired with the original path; on success it
unconditionally returns the total in-memory classification of the buffer (no
partial-result mode exists). -/
theorem annotate_file_error_surface (lang : Lang) (fs : FileSystem)
    (path : List Nat) (cfg : Config) :
    annotate_file lang fs path cfg
      = Except.map (annotate_from_slice lang cfg)
          (Except.mapError (fun e => (e, path)) (readOutcome fs path)) := by
  simp only [annotate_file, readOutcome]
  cases ho : fs.openFile path with
  | error e => simp [ho, Except.map, Except.mapError]
  | ok f =>
    cases hr : fs.readToEnd f with
    | error e => simp [ho, hr, Except.map, Except.mapError]
    | ok text => simp [ho, hr, Except.map, Except.mapError]

/-- C9: the prefix half's map-reduce is deterministic under scheduling: folding
the per-line maps in any order (any permutation of the enumerated prefix lines'
singleton maps) with the `extend` reduction yields exactly the map the in-order
reduction yields — keys are unique and disjoint across lines, so the union is
order-independent. -/
theorem skippable_reduce_perm_invariant (lang : Lang) (lines : List (List Nat))
    (l : List CMap) (h : l.Perm (skippableLineMaps lang lines)) :
    l.foldl extendCM emptyCM = skippableAnnots lang lines := by
  rw [skippableAnnots]
  exact h.foldl_eq'
    (fun x hx y hy z =>
      skippableLineMaps_comm lang lines x (h.subset hx) y (h.subset hy) z)
    emptyCM

/-- C9 (witness): reducing the two singleton maps of a two-line prefix in
reversed order yields the same map as the in-order reduction. -/
theorem skippable_reduce_perm_invariant_witness :
    ([skippableLineMap toyLang (1, [98, 10]),
        skippableLineMap toyLang (0, [97, 10])].Perm
      (skippableLineMaps toyLang [[97, 10], [98, 10]]))
  ∧ ([skippableLineMap toyLang (1, [98, 10]),
        skippableLineMap toyLang (0, [97, 10])].foldl extendCM emptyCM
      = skippableAnnots toyLang [[97, 10], [98, 10]]) := by
  have hp : [skippableLineMap toyLang (1, [98, 10]),
      skippableLineMap toyLang (0, [97, 10])].Perm
      (skippableLineMaps toyLang [[97, 10], [98, 10]]) :=
    List.Perm.swap (skippableLineMap toyLang (0, [97, 10]))
      (skippableLineMap toyLang (1, [98, 10])) []
  exact ⟨hp, skippable_reduce_perm_invariant toyLang [[97, 10], [98, 10]] _ hp⟩

/-- C10: line numbering starts at 0 in every path of `annotate_from_slice`: for a
buffer with `n` physical lines, the blank-language map, the sequential stateful
scan (also the tail half of the split, which runs `annotate_lines` on its own
lines with no offset), and the prefix half's reduced map each have an entry at
`k` exactly when `k < n` — their key sets are `{0, …, n − 1}`. -/
theorem line_numbering_from_zero (lang : Lang) (cfg : Config) (text : List Nat)
    (st : ScanState) (k : Nat) :
    ((blankAnnots (lineIter text) k).isSome ↔ k < (lineIter text).length)
  ∧ ((annotate_lines lang cfg (lineIter text) emptyCM st k).isSome
      ↔ k < (lineIter text).length)
  ∧ ((skippableAnnots lang (lineIter text) k).isSome ↔ k < (lineIter text).length) := by
  refine ⟨?_, ?_, ?_⟩
  · rw [blankAnnots, blankAnnotsGo_lookup]
    by_cases hk : k < (lineIter text).length
    · rw [if_pos (by omega)]
      simp [hk]
    · rw [if_neg (by omega)]
      simp [emptyCM, hk]
  · rw [annotate_lines, annotateLinesGo_isSome]
    constructor
    · rintro (⟨h1, h2⟩ | h)
      · omega
      · simp [emptyCM] at h
    · intro hk
      exact Or.inl ⟨by omega, by omega⟩
  · rw [skippableAnnots, skippableLineMaps, skippableFold_lookup]
    by_cases hk : k < (lineIter text).length
    · rw [if_pos (by omega)]
      simp [hk]
    · rw [if_neg (by omega)]
      simp [emptyCM, hk]
